import Mathlib

/-!
Shallow embedding of the synapse state-group storage engine
(src/synapse/storage/data_stores/main/state.py) together with theorems
settling the frozen claims about its specification.

Python dicts are embedded as association lists with insert-or-overwrite
semantics (`dictInsert`), SQL tables as association lists of rows, and
fallible operations as `Except`.
-/

namespace Synapse

/-- Python-dict lookup on an association list: the first binding wins
(the list is kept key-unique by `dictInsert`, so this is the unique one). -/
def dictLookup {K V : Type} [DecidableEq K] : List (K × V) → K → Option V
  | [], _ => none
  | p :: rest, k => if p.1 = k then some p.2 else dictLookup rest k

/-- Python-dict insert: `d[k] = v`. Overwrites in place when the key is
present, appends otherwise (insertion order preserved, as in Python; the
association lists built with it are always key-unique). -/
def dictInsert {K V : Type} [DecidableEq K] : List (K × V) → K → V → List (K × V)
  | [], k, v => [(k, v)]
  | p :: rest, k, v => if p.1 = k then (k, v) :: rest else p :: dictInsert rest k v

theorem dictLookup_dictInsert_self {K V : Type} [DecidableEq K]
    (d : List (K × V)) (k : K) (v : V) :
    dictLookup (dictInsert d k v) k = some v := by
  induction d with
  | nil => simp [dictInsert, dictLookup]
  | cons p rest ih =>
    by_cases hp : p.1 = k
    · simp [dictInsert, hp, dictLookup]
    · simp [dictInsert, hp, dictLookup, ih]

theorem dictLookup_dictInsert_ne {K V : Type} [DecidableEq K]
    (d : List (K × V)) (k k' : K) (v : V) (hne : k ≠ k') :
    dictLookup (dictInsert d k v) k' = dictLookup d k' := by
  induction d with
  | nil => simp [dictInsert, dictLookup, fun h => hne h]
  | cons p rest ih =>
    by_cases hp : p.1 = k
    · simp only [dictInsert, if_pos hp, dictLookup, if_neg (fun h => hne h : ¬ k = k')]
      rw [if_neg (fun h => hne (hp ▸ h) : ¬ p.1 = k')]
    · simp only [dictInsert, if_neg hp, dictLookup]
      by_cases hp' : p.1 = k'
      · simp [hp']
      · simp [hp', ih]

/-- The keys of an association list. -/
def dictKeys {K V : Type} (d : List (K × V)) : List K := d.map Prod.fst

theorem mem_dictKeys_dictInsert {K V : Type} [DecidableEq K]
    (d : List (K × V)) (k a : K) (v : V) :
    a ∈ dictKeys (dictInsert d k v) ↔ a ∈ dictKeys d ∨ a = k := by
  induction d with
  | nil => simp [dictInsert, dictKeys]
  | cons p rest ih =>
    by_cases hp : p.1 = k
    · simp only [dictInsert, if_pos hp, dictKeys, List.map_cons, List.mem_cons]
      unfold dictKeys at *
      constructor
      · rintro (h | h)
        · exact Or.inr h
        · exact Or.inl (Or.inr h)
      · rintro ((h | h) | h)
        · exact Or.inl (hp ▸ h)
        · exact Or.inr h
        · exact Or.inl h
    · simp only [dictInsert, if_neg hp, dictKeys, List.map_cons, List.mem_cons]
      unfold dictKeys at ih
      rw [ih]
      tauto

theorem dictKeys_dictInsert_nodup {K V : Type} [DecidableEq K]
    (d : List (K × V)) (k : K) (v : V) (h : (dictKeys d).Nodup) :
    (dictKeys (dictInsert d k v)).Nodup := by
  induction d with
  | nil => simp [dictInsert, dictKeys]
  | cons p rest ih =>
    simp only [dictKeys, List.map_cons, List.nodup_cons] at h
    by_cases hp : p.1 = k
    · simp only [dictInsert, if_pos hp, dictKeys, List.map_cons, List.nodup_cons]
      exact ⟨hp ▸ h.1, h.2⟩
    · simp only [dictInsert, if_neg hp, dictKeys, List.map_cons, List.nodup_cons]
      refine ⟨?_, ih h.2⟩
      intro hmem
      rw [show (dictInsert rest k v).map Prod.fst = dictKeys (dictInsert rest k v) from rfl] at hmem
      rw [mem_dictKeys_dictInsert] at hmem
      rcases hmem with hmem | hmem
      · exact h.1 hmem
      · exact hp hmem

theorem dictLookup_isSome_iff_mem_keys {K V : Type} [DecidableEq K]
    (d : List (K × V)) (k : K) :
    (dictLookup d k).isSome = true ↔ k ∈ dictKeys d := by
  induction d with
  | nil => simp [dictLookup, dictKeys]
  | cons p rest ih =>
    simp only [dictLookup, dictKeys, List.map_cons, List.mem_cons]
    by_cases hp : p.1 = k
    · simp [hp]
    · simp only [if_neg hp]
      rw [ih]
      unfold dictKeys
      constructor
      · intro h; exact Or.inr h
      · rintro (h | h)
        · exact absurd h.symm hp
        · exact h

theorem dictKeys_nodup_count {K V : Type} [DecidableEq K]
    (d : List (K × V)) (k : K) (h : (dictKeys d).Nodup)
    (hmem : k ∈ dictKeys d) :
    (d.countP (fun p => p.1 = k)) = 1 := by
  induction d with
  | nil => simp [dictKeys] at hmem
  | cons p rest ih =>
    simp only [dictKeys, List.map_cons, List.nodup_cons] at h
    simp only [dictKeys, List.map_cons, List.mem_cons] at hmem
    rw [List.countP_cons]
    by_cases hp : p.1 = k
    · have : k ∉ dictKeys rest := by rw [← hp]; exact h.1
      have hz : rest.countP (fun p => p.1 = k) = 0 := by
        rw [List.countP_eq_zero]
        intro q hq
        simp only [decide_eq_true_eq]
        intro hqk
        exact this (by rw [← hqk]; exact List.mem_map_of_mem Prod.fst hq)
      simp [hz, hp]
    · rcases hmem with hmem | hmem
      · exact absurd hmem.symm hp
      · rw [ih h.2 hmem]
        simp [hp]

/-! ## Data model

`EventBase` and `EventContext` carry exactly the fields `state.py` reads:
`event.internal_metadata.is_outlier()` is embedded as the Boolean field
`is_outlier`, the content payload keeps the fields the composed room
queries access (`room_version`, `predecessor`, `canonical_alias`), and the
context carries the resolver's decision (`rejected`, `state_group`,
`prev_group`).  State groups are identifiers (`Nat`); a nullable SQL
column is an `Option`. -/

/-- The content payload of an event, restricted to the keys this store
reads (`content.get("room_version")`, `content.get("predecessor")`,
`content.get("canonical_alias")`). -/
structure EventContent where
  room_version : Option String
  predecessor : Option String
  canonical_alias : Option String
deriving DecidableEq, Repr

/-- An event as seen by this store: its id, its outlier flag
(`event.internal_metadata.is_outlier()`), and its content. -/
structure EventBase where
  event_id : String
  is_outlier : Bool
  content : EventContent
deriving DecidableEq, Repr

/-- The event-processing context attached by the external state resolver:
the `rejected` flag and the `state_group` / `prev_group` decision
(both nullable). -/
structure EventContext where
  rejected : Bool
  state_group : Option Nat
  prev_group : Option Nat
deriving DecidableEq, Repr

/-- `EventTypes.Create` from `synapse.api.constants`. -/
def EventTypesCreate : String := "m.room.create"

/-- `EventTypes.CanonicalAlias` from `synapse.api.constants`. -/
def EventTypesCanonicalAlias : String := "m.room.canonical_alias"

/-- `MAX_STATE_DELTA_HOPS` (state.py line 39). -/
def MAX_STATE_DELTA_HOPS : Nat := 100

/-! ## Write coordinator: `_store_event_state_mappings_txn`

The Python builds a dict `state_groups`, skipping outliers, mapping a
rejected event to `context.prev_group` and any other event to
`context.state_group`, then bulk-inserts the dict items into
`event_to_state_groups` and registers a post-commit cache prefill for
each item.  The dict build is embedded verbatim as a fold with
`dictInsert`; the rows inserted (and the prefills registered) are exactly
the dict items. -/

/-- The `state_groups` dict built by `_store_event_state_mappings_txn`:
for each (event, context) pair in order, skip outliers, assign
`context.prev_group` to rejected events and `context.state_group`
otherwise (later pairs overwrite earlier ones, as a Python dict does).
The resulting association list is both the set of rows bulk-inserted into
`event_to_state_groups` and the set of post-commit cache prefills. -/
def store_event_state_mappings_txn
    (events_and_contexts : List (EventBase × EventContext)) :
    List (String × Option Nat) :=
  events_and_contexts.foldl
    (fun state_groups ec =>
      if ec.1.is_outlier then
        state_groups
      else if ec.2.rejected then
        dictInsert state_groups ec.1.event_id ec.2.prev_group
      else
        dictInsert state_groups ec.1.event_id ec.2.state_group)
    []

/-- The state group a single non-outlier pair would assign: the context's
`prev_group` when rejected, its `state_group` otherwise. -/
def assignedGroup (ec : EventBase × EventContext) : Option Nat :=
  if ec.2.rejected then ec.2.prev_group else ec.2.state_group

/-- Whether a pair is a non-outlier pair for event id `e`. -/
def relevantPair (e : String) (ec : EventBase × EventContext) : Bool :=
  !ec.1.is_outlier && ec.1.event_id == e

/-- Characterization of the committed table: the assignment row for an
event id is determined by the last non-outlier pair carrying that id
(generalized over the fold's accumulator). -/
theorem store_fold_lookup (ecs : List (EventBase × EventContext))
    (init : List (String × Option Nat)) (e : String) :
    dictLookup
      (ecs.foldl
        (fun state_groups ec =>
          if ec.1.is_outlier then state_groups
          else if ec.2.rejected then
            dictInsert state_groups ec.1.event_id ec.2.prev_group
          else
            dictInsert state_groups ec.1.event_id ec.2.state_group)
        init) e
    = ((ecs.filter (relevantPair e)).getLast?.map assignedGroup).orElse
        (fun _ => dictLookup init e) := by
  induction ecs generalizing init with
  | nil => simp [Option.orElse]
  | cons ec rest ih =>
    simp only [List.foldl_cons, List.filter_cons]
    by_cases hout : ec.1.is_outlier
    · have hrel : relevantPair e ec = false := by
        simp [relevantPair, hout]
      simp only [if_pos hout, hrel, Bool.false_eq_true, if_neg (by simp : ¬ False)]
      rw [ih]
    · by_cases hid : ec.1.event_id = e
      · have hrel : relevantPair e ec = true := by
          simp [relevantPair, hout, hid]
        simp only [if_neg hout, hrel, if_pos trivial]
        by_cases hrej : ec.2.rejected
        · simp only [if_pos hrej]
          rw [ih]
          cases hlast : (rest.filter (relevantPair e)).getLast? with
          | none =>
            have hnil : rest.filter (relevantPair e) = [] :=
              List.getLast?_eq_none_iff.mp hlast
            rw [List.getLast?_cons, hlast]
            simp only [Option.getD_none, Option.map_some]
            simp [Option.orElse, assignedGroup, hrej, hid, dictLookup_dictInsert_self]
          | some last =>
            rw [List.getLast?_cons, hlast]
            simp [Option.orElse]
        · simp only [if_neg hrej]
          rw [ih]
          cases hlast : (rest.filter (relevantPair e)).getLast? with
          | none =>
            have hnil : rest.filter (relevantPair e) = [] :=
              List.getLast?_eq_none_iff.mp hlast
            rw [List.getLast?_cons, hlast]
            simp only [Option.getD_none, Option.map_some]
            simp [Option.orElse, assignedGroup, hrej, hid, dictLookup_dictInsert_self]
          | some last =>
            rw [List.getLast?_cons, hlast]
            simp [Option.orElse]
      · have hrel : relevantPair e ec = false := by
          simp [relevantPair, hid]
        simp only [if_neg hout, hrel, Bool.false_eq_true, if_neg (by simp : ¬ False)]
        by_cases hrej : ec.2.rejected
        · simp only [if_pos hrej]
          rw [ih, dictLookup_dictInsert_ne _ _ _ _ hid]
        · simp only [if_neg hrej]
          rw [ih, dictLookup_dictInsert_ne _ _ _ _ hid]

/-- The committed assignment for an event id is the `assignedGroup` of the
last non-outlier pair carrying that id (and absent when there is none). -/
theorem store_lookup_eq_getLast (ecs : List (EventBase × EventContext)) (e : String) :
    dictLookup (store_event_state_mappings_txn ecs) e
      = (ecs.filter (relevantPair e)).getLast?.map assignedGroup := by
  rw [store_event_state_mappings_txn, store_fold_lookup]
  cases (ecs.filter (relevantPair e)).getLast? <;> simp [Option.orElse, dictLookup]

/-- The committed table has key-unique rows. -/
theorem store_keys_nodup (ecs : List (EventBase × EventContext)) :
    (dictKeys (store_event_state_mappings_txn ecs)).Nodup := by
  rw [store_event_state_mappings_txn]
  have hgen : ∀ init : List (String × Option Nat), (dictKeys init).Nodup →
      (dictKeys (ecs.foldl
        (fun state_groups ec =>
          if ec.1.is_outlier then state_groups
          else if ec.2.rejected then
            dictInsert state_groups ec.1.event_id ec.2.prev_group
          else
            dictInsert state_groups ec.1.event_id ec.2.state_group)
        init)).Nodup := by
    induction ecs with
    | nil => intro init h; exact h
    | cons ec rest ih =>
      intro init h
      simp only [List.foldl_cons]
      by_cases hout : ec.1.is_outlier
      · simp only [if_pos hout]; exact ih init h
      · simp only [if_neg hout]
        by_cases hrej : ec.2.rejected
        · simp only [if_pos hrej]
          exact ih _ (dictKeys_dictInsert_nodup _ _ _ h)
        · simp only [if_neg hrej]
          exact ih _ (dictKeys_dictInsert_nodup _ _ _ h)
  exact hgen [] (by simp [dictKeys])

/-! ## Read path: current state and the composed room queries -/

/-- A row of the `current_state_events` table:
(room_id, type, state_key, event_id). -/
structure CurrentStateRow where
  room_id : String
  type : String
  state_key : String
  event_id : String
deriving DecidableEq, Repr

/-- `_get_current_state_ids_txn`: `SELECT type, state_key, event_id FROM
current_state_events WHERE room_id = ?`, collected into a dict keyed by
(type, state_key) (the Python dict comprehension). -/
def get_current_state_ids (current_state_events : List CurrentStateRow)
    (room_id : String) : List ((String × String) × String) :=
  (current_state_events.filter (fun r => r.room_id = room_id)).foldl
    (fun acc r => dictInsert acc (r.type, r.state_key) r.event_id) []

/-- A `StateFilter` (per the spec's data model §3): the all-filter, or a
list of (type, optional state_key) entries where an absent state_key is a
wildcard for the type. -/
inductive StateFilter where
  | all
  | fromTypes (types : List (String × Option String))
deriving DecidableEq, Repr

/-- Modelled from the spec: `StateFilter.make_sql_filter_clause`
(`synapse.storage.state.StateFilter` is not under src/).  Per §4.2 the
all-filter produces no WHERE clause (so the caller delegates to the
cached path), and any other filter produces a narrowing clause over
(type, state_key); the produced SQL clause is embedded as the predicate
it denotes, `none` when no clause is produced. -/
def make_sql_filter_clause : StateFilter → Option (String × String → Bool)
  | .all => none
  | .fromTypes types =>
      some (fun p =>
        types.any (fun t =>
          t.1 == p.1 &&
            (match t.2 with
             | none => true
             | some k => k == p.2)))

/-- `get_filtered_current_state_ids`: compute the filter clause; with no
clause, delegate to `get_current_state_ids`; otherwise run the narrowed
query over `current_state_events` and build the result dict. -/
def get_filtered_current_state_ids (current_state_events : List CurrentStateRow)
    (room_id : String) (state_filter : StateFilter) :
    List ((String × String) × String) :=
  match make_sql_filter_clause state_filter with
  | none => get_current_state_ids current_state_events room_id
  | some clause =>
      (current_state_events.filter
        (fun r => r.room_id = room_id ∧ clause (r.type, r.state_key) = true)).foldl
        (fun results r => dictInsert results (r.type, r.state_key) r.event_id) []

/-- Errors surfaced by this store (`synapse.api.errors.NotFoundError`,
which the spec calls `RoomNotFound` when raised for a missing room). -/
inductive StoreError where
  | NotFoundError (msg : String)
deriving DecidableEq, Repr

/-- Modelled from the spec: the external event loader (§6:
`load(event_id) → Event`, fails NotFound if absent);
`EventsWorkerStore.get_event` is not under src/. -/
def get_event (events : String → Option EventBase) (event_id : String) :
    Except StoreError EventBase :=
  match events event_id with
  | some ev => .ok ev
  | none => .error (.NotFoundError event_id)

/-- `get_create_event_for_room`: look up the (create-type, "") key in the
room's current state; `if not create_id` (absent, or falsy empty string)
raise NotFoundError("Unknown room ..."); otherwise load the event. -/
def get_create_event_for_room (current_state_events : List CurrentStateRow)
    (events : String → Option EventBase) (room_id : String) :
    Except StoreError EventBase :=
  let state_ids := get_current_state_ids current_state_events room_id
  match dictLookup state_ids (EventTypesCreate, "") with
  | none => .error (.NotFoundError ("Unknown room " ++ room_id))
  | some create_id =>
      if create_id = "" then .error (.NotFoundError ("Unknown room " ++ room_id))
      else get_event events create_id

/-- `get_room_version`: the create event's `content.get("room_version",
"1")`; propagates the create-event lookup failure. -/
def get_room_version (current_state_events : List CurrentStateRow)
    (events : String → Option EventBase) (room_id : String) :
    Except StoreError String := do
  let create_event ← get_create_event_for_room current_state_events events room_id
  return create_event.content.room_version.getD "1"

/-- `get_room_predecessor`: the create event's
`content.get("predecessor", None)`; propagates the create-event lookup
failure. -/
def get_room_predecessor (current_state_events : List CurrentStateRow)
    (events : String → Option EventBase) (room_id : String) :
    Except StoreError (Option String) := do
  let create_event ← get_create_event_for_room current_state_events events room_id
  return create_event.content.predecessor

/-! ## Event→Group cache -/

/-- `_simple_select_one_onecol(..., allow_none=True)` over
`event_to_state_groups`: the `state_group` column of the row for the
event, absent when there is no row. -/
def select_state_group_onecol (table : List (String × Option Nat))
    (event_id : String) : Option Nat :=
  (dictLookup table event_id).join

/-- `_get_state_group_for_event` under its `@cached` descriptor (the
descriptor itself is not under src/; its serve-from-cache/memoize
behaviour is modelled from §4.3): a cached event id is served without
touching storage; a miss reads the one column and memoizes the result,
a missing assignment included.  Returns (result, updated cache, storage
reads issued). -/
def get_state_group_for_event (cache table : List (String × Option Nat))
    (event_id : String) : Option Nat × List (String × Option Nat) × Nat :=
  match dictLookup cache event_id with
  | some v => (v, cache, 0)
  | none =>
      let v := select_state_group_onecol table event_id
      (v, dictInsert cache event_id v, 1)

/-- `_simple_select_many_batch` over `event_to_state_groups` (one storage
round trip): one (event_id, state_group) row per requested id that has a
row.  The table is key-unique, so this is the set of matching rows; SQL
row order is immaterial because the caller builds a dict from the rows,
and the rows are listed here in requested-id order. -/
def select_state_groups_batch (table : List (String × Option Nat))
    (ids : List String) : List (String × Option Nat) :=
  ids.filterMap (fun e => (dictLookup table e).map (fun g => (e, g)))

/-- `_get_state_group_for_events` under its `@cachedList` descriptor.
The src function body is the batched select collected into the dict
`{row.event_id: row.state_group}`; the descriptor's split/merge
machinery is not under src/ and is modelled from §4.3: already-cached
ids are served from the item cache, the remaining ids are fetched in one
batched select, every fetched row populates the item cache, and the
returned mapping contains only ids that have an assignment (a cached
no-assignment result is omitted, never returned as an explicit null).
Returns (result mapping, updated cache, storage reads issued). -/
def get_state_group_for_events (cache table : List (String × Option Nat))
    (event_ids : List String) :
    List (String × Option Nat) × List (String × Option Nat) × Nat :=
  let hits := event_ids.filterMap (fun e => (dictLookup cache e).map (fun v => (e, v)))
  let misses := event_ids.filter (fun e => (dictLookup cache e).isNone)
  let rows := select_state_groups_batch table misses
  let result := hits.filterMap (fun p => p.2.map (fun g => (p.1, some g))) ++ rows
  (result, rows.foldl (fun c p => dictInsert c p.1 p.2) cache,
   if misses.isEmpty then 0 else 1)

/-! ## Dict lemmas used by the cache proofs -/

theorem dictLookup_append {K V : Type} [DecidableEq K] (a b : List (K × V)) (k : K) :
    dictLookup (a ++ b) k = (dictLookup a k).orElse (fun _ => dictLookup b k) := by
  induction a with
  | nil => simp [dictLookup, Option.orElse]
  | cons p rest ih =>
    simp only [List.cons_append, dictLookup]
    by_cases hp : p.1 = k
    · simp [hp, Option.orElse]
    · simp [hp, ih]

theorem dictLookup_graph_not_mem {V : Type} (ids : List String)
    (h : String → Option V) (k : String) (hk : k ∉ ids) :
    dictLookup (ids.filterMap (fun e => (h e).map (fun v => (e, v)))) k = none := by
  induction ids with
  | nil => rfl
  | cons e rest ih =>
    simp only [List.mem_cons, not_or] at hk
    simp only [List.filterMap_cons]
    cases hhe : h e with
    | none => exact ih hk.2
    | some v =>
      simp only [Option.map_some, dictLookup]
      rw [if_neg (fun hek => hk.1 hek.symm : ¬ (e, v).1 = k)]
      exact ih hk.2

theorem dictLookup_graph {V : Type} (ids : List String)
    (h : String → Option V) (k : String) (hnd : ids.Nodup) :
    dictLookup (ids.filterMap (fun e => (h e).map (fun v => (e, v)))) k
      = if k ∈ ids then h k else none := by
  induction ids with
  | nil => simp [dictLookup]
  | cons e rest ih =>
    rw [List.nodup_cons] at hnd
    rw [List.filterMap_cons]
    cases hhe : h e with
    | none =>
      simp only [Option.map_none']
      rw [ih hnd.2]
      by_cases hk : k = e
      · subst hk
        simp [hnd.1, hhe]
      · simp [List.mem_cons, hk]
    | some v =>
      simp only [Option.map_some, dictLookup]
      by_cases hk : e = k
      · subst hk
        simp [hhe]
      · rw [if_neg hk, ih hnd.2]
        by_cases hkr : k ∈ rest
        · simp [hkr, List.mem_cons]
        · have hne : k ∉ e :: rest := by
            intro hmem
            rcases List.mem_cons.mp hmem with hke | hker
            · exact hk hke.symm
            · exact hkr hker
          rw [if_neg hkr, if_neg hne]

theorem dictLookup_foldl_insert_not_mem {K V : Type} [DecidableEq K]
    (rows : List (K × V)) (c : List (K × V)) (k : K)
    (h : k ∉ dictKeys rows) :
    dictLookup (rows.foldl (fun c p => dictInsert c p.1 p.2) c) k
      = dictLookup c k := by
  induction rows generalizing c with
  | nil => rfl
  | cons p rest ih =>
    simp only [dictKeys, List.map_cons, List.mem_cons, not_or] at h
    simp only [List.foldl_cons]
    rw [ih _ (by simpa [dictKeys] using h.2)]
    exact dictLookup_dictInsert_ne _ _ _ _ (fun hpk => h.1 hpk.symm)

theorem dictLookup_foldl_insert_mem {K V : Type} [DecidableEq K]
    (rows : List (K × V)) (c : List (K × V)) (k : K) (v : V)
    (hnd : (dictKeys rows).Nodup) (hmem : (k, v) ∈ rows) :
    dictLookup (rows.foldl (fun c p => dictInsert c p.1 p.2) c) k = some v := by
  induction rows generalizing c with
  | nil => simp at hmem
  | cons p rest ih =>
    simp only [dictKeys, List.map_cons, List.nodup_cons] at hnd
    simp only [List.foldl_cons]
    rcases List.mem_cons.mp hmem with hmem | hmem
    · subst hmem
      rw [dictLookup_foldl_insert_not_mem _ _ _ hnd.1]
      exact dictLookup_dictInsert_self _ _ _
    · exact ih _ hnd.2 hmem

theorem dictInsert_dictInsert_self {K V : Type} [DecidableEq K]
    (d : List (K × V)) (k : K) (v w : V) :
    dictInsert (dictInsert d k v) k w = dictInsert d k w := by
  induction d with
  | nil => simp [dictInsert]
  | cons p rest ih =>
    by_cases hp : p.1 = k
    · simp [dictInsert, hp]
    · simp [dictInsert, hp, ih]

/-! ## Write transaction and post-commit prefill -/

/-- An observable step of the store-assignments path. -/
inductive Action where
  | dbInsert (rows : List (String × Option Nat))
  | commit
  | rollback
  | cachePrefill (event_id : String) (state_group : Option Nat)
  | storageRead
deriving DecidableEq, Repr

/-- Whether an action is an Event→Group cache prefill. -/
def Action.isPrefill : Action → Bool
  | .cachePrefill _ _ => true
  | _ => false

/-- Modelled from the spec: the scoped transaction executor (§6
`runInTransaction`: commit-or-rollback) together with `txn.call_after`
as used at state.py lines 325-328 (§4.4: the registered cache prefills
run only after the transaction commits; on failure nothing is applied
and no registered callback runs); neither `runInteraction` nor
`call_after` is under src/.  `success` abstracts whether the storage
transaction commits.  The transaction body is
`store_event_state_mappings_txn`: the committed rows go into
`event_to_state_groups` and the same rows are the registered prefills.
Returns (updated assignment table, updated item cache, ordered trace of
observable actions). -/
def store_event_state_assignments (table cache : List (String × Option Nat))
    (events_and_contexts : List (EventBase × EventContext)) (success : Bool) :
    List (String × Option Nat) × List (String × Option Nat) × List Action :=
  let rows := store_event_state_mappings_txn events_and_contexts
  if success then
    (rows.foldl (fun t p => dictInsert t p.1 p.2) table,
     rows.foldl (fun c p => dictInsert c p.1 p.2) cache,
     [Action.dbInsert rows, Action.commit]
       ++ rows.map (fun p => Action.cachePrefill p.1 p.2))
  else
    (table, cache, [Action.rollback])

/-! ## Single-flight coalescing on the Current-State Cache -/

/-- The state of the cached `get_current_state_ids` front end: the
per-room result cache, the in-flight fetches with their attached waiting
callers (in arrival order), and a counter of underlying storage reads
issued. -/
structure CurrentStateCacheState where
  cache : List (String × List ((String × String) × String))
  inflight : List (String × List Nat)
  reads : Nat
deriving DecidableEq, Repr

/-- What a single `get_current_state_ids` call observes when it is
issued: an immediate cache hit, or attachment to the (possibly just
started) in-flight fetch. -/
inductive FetchOutcome where
  | hit (value : List ((String × String) × String))
  | waiting
deriving DecidableEq, Repr

/-- Modelled from the spec: the `@cached` descriptor's request path (the
descriptor is not under src/).  §4.2/§5: a call for a cached room
returns the cached value; a call while a fetch for the same room is in
flight attaches to the one in-flight result rather than issuing a
duplicate read; otherwise the call issues the one underlying storage
read and registers itself in flight. -/
def request_current_state_ids (s : CurrentStateCacheState) (caller : Nat)
    (room_id : String) : CurrentStateCacheState × FetchOutcome :=
  match dictLookup s.cache room_id with
  | some v => (s, .hit v)
  | none =>
      match dictLookup s.inflight room_id with
      | some waiters =>
          ({ s with inflight := dictInsert s.inflight room_id (waiters ++ [caller]) },
           .waiting)
      | none =>
          ({ s with inflight := dictInsert s.inflight room_id [caller],
                    reads := s.reads + 1 },
           .waiting)

/-- Modelled from the spec: completion of the one in-flight storage read
for a room (§4.2/§5): the fetched mapping — computed by
`_get_current_state_ids_txn` over the materialized rows, embedded as
`get_current_state_ids` — is published to the cache and delivered to
every attached caller, and the in-flight entry is retired. -/
def complete_current_state_ids (s : CurrentStateCacheState)
    (current_state_events : List CurrentStateRow) (room_id : String) :
    CurrentStateCacheState × List (Nat × List ((String × String) × String)) :=
  let value := get_current_state_ids current_state_events room_id
  let waiters := (dictLookup s.inflight room_id).getD []
  ({ s with cache := dictInsert s.cache room_id value,
            inflight := s.inflight.filter (fun p => ¬ p.1 = room_id) },
   waiters.map (fun c => (c, value)))

/-! ## Bounded delta-chain walk -/

/-- A state group definition in the Delta Store: the optional ancestor
and the delta mapping (type, state_key) → event_id. -/
structure StateGroupDelta where
  prev_group : Option Nat
  delta_ids : List ((String × String) × String)
deriving DecidableEq, Repr

/-- Modelled from the spec (§3, §4.4): resolving a group's full state by
walking `prev_group` links, overlaying each delta on its ancestor's
resolved state (child entries win), hard-capped at a fuel of
`MAX_STATE_DELTA_HOPS` ancestor hops; at the cap the chain is "too deep"
and a fully materialized snapshot (`snapshot`) is used for the remaining
ancestry instead of continuing to chase ancestors.  The chain-walking
code itself is not under src/; only the `MAX_STATE_DELTA_HOPS` constant
(state.py line 39) is.  Returns the resolved state and the number of
ancestor hops performed. -/
def resolve_state_group (deltas : Nat → Option StateGroupDelta)
    (snapshot : Nat → List ((String × String) × String)) :
    Nat → Nat → List ((String × String) × String) × Nat
  | 0, g => (snapshot g, 0)
  | fuel + 1, g =>
      match deltas g with
      | none => (snapshot g, 0)
      | some d =>
          match d.prev_group with
          | none => (d.delta_ids, 0)
          | some parent =>
              let r := resolve_state_group deltas snapshot fuel parent
              (d.delta_ids.foldl (fun acc p => dictInsert acc p.1 p.2) r.1, r.2 + 1)

/-- Read-path resolution of a group's full state: the chain walk started
with the `MAX_STATE_DELTA_HOPS` budget. -/
def get_state_for_group (deltas : Nat → Option StateGroupDelta)
    (snapshot : Nat → List ((String × String) × String)) (group : Nat) :
    List ((String × String) × String) × Nat :=
  resolve_state_group deltas snapshot MAX_STATE_DELTA_HOPS group

theorem resolve_state_group_hops_le (deltas : Nat → Option StateGroupDelta)
    (snapshot : Nat → List ((String × String) × String)) (fuel group : Nat) :
    (resolve_state_group deltas snapshot fuel group).2 ≤ fuel := by
  induction fuel generalizing group with
  | zero => simp [resolve_state_group]
  | succ fuel ih =>
    simp only [resolve_state_group]
    cases deltas group with
    | none => simp
    | some d =>
      cases hd : d.prev_group with
      | none => simp [hd]
      | some parent =>
        simp only [hd]
        simpa using Nat.succ_le_succ (ih parent)

/-! ## Claim theorems -/

/-- C1 (counterexample): the claim as stated fails when a later
non-outlier pair reuses the same event_id: here the first pair is
non-outlier and rejected with prev_group = 1, yet the committed
assignment for "e1" is the second pair's state_group = 2, because later
pairs overwrite earlier ones in the `state_groups` dict. -/
theorem rejected_event_prev_group_overwritten :
    ((⟨"e1", false, ⟨none, none, none⟩⟩, ⟨true, some 2, some 1⟩) :
        EventBase × EventContext) ∈
      [((⟨"e1", false, ⟨none, none, none⟩⟩ : EventBase),
        (⟨true, some 2, some 1⟩ : EventContext)),
       (⟨"e1", false, ⟨none, none, none⟩⟩, ⟨false, some 2, some 1⟩)] ∧
    (⟨"e1", false, ⟨none, none, none⟩⟩ : EventBase).is_outlier = false ∧
    (⟨true, some 2, some 1⟩ : EventContext).rejected = true ∧
    dictLookup
        (store_event_state_mappings_txn
          [(⟨"e1", false, ⟨none, none, none⟩⟩, ⟨true, some 2, some 1⟩),
           (⟨"e1", false, ⟨none, none, none⟩⟩, ⟨false, some 2, some 1⟩)])
        (⟨"e1", false, ⟨none, none, none⟩⟩ : EventBase).event_id
      ≠ some (⟨true, some 2, some 1⟩ : EventContext).prev_group := by
  decide

/-- C1 (amended): for every call to `store_event_state_mappings_txn` and
every non-outlier rejected pair that is the last non-outlier pair with
its event_id in the call, the committed assignment for that event_id
equals the context's prev_group (not its state_group). -/
theorem rejected_event_inherits_prev_group
    (ecs : List (EventBase × EventContext)) (ev : EventBase) (ctx : EventContext)
    (hlast : (ecs.filter (relevantPair ev.event_id)).getLast? = some (ev, ctx))
    (hrej : ctx.rejected = true) :
    dictLookup (store_event_state_mappings_txn ecs) ev.event_id
      = some ctx.prev_group := by
  rw [store_lookup_eq_getLast, hlast]
  simp [assignedGroup, hrej]

/-- Witness for `rejected_event_inherits_prev_group`: a concrete call
with one rejected pair (prev_group = 7, state_group = 9) commits 7. -/
theorem rejected_event_inherits_prev_group_witness :
    dictLookup
        (store_event_state_mappings_txn
          [(⟨"e1", false, ⟨none, none, none⟩⟩, ⟨true, some 9, some 7⟩)])
        "e1"
      = some (some 7) :=
  rejected_event_inherits_prev_group
    [(⟨"e1", false, ⟨none, none, none⟩⟩, ⟨true, some 9, some 7⟩)]
    ⟨"e1", false, ⟨none, none, none⟩⟩ ⟨true, some 9, some 7⟩
    (by decide) (by decide)

/-- C2 (counterexample): the claim as stated fails when a non-outlier
pair shares the outlier pair's event_id: the outlier pair itself
contributes nothing, but after the call an assignment for its event_id
exists, written by the non-outlier pair. -/
theorem outlier_event_id_assigned_via_duplicate :
    (⟨"e1", true, ⟨none, none, none⟩⟩ : EventBase).is_outlier = true ∧
    ((⟨"e1", true, ⟨none, none, none⟩⟩, ⟨false, some 3, none⟩) :
        EventBase × EventContext) ∈
      [((⟨"e1", true, ⟨none, none, none⟩⟩ : EventBase),
        (⟨false, some 3, none⟩ : EventContext)),
       (⟨"e1", false, ⟨none, none, none⟩⟩, ⟨false, some 3, none⟩)] ∧
    dictLookup
        (store_event_state_mappings_txn
          [(⟨"e1", true, ⟨none, none, none⟩⟩, ⟨false, some 3, none⟩),
           (⟨"e1", false, ⟨none, none, none⟩⟩, ⟨false, some 3, none⟩)])
        (⟨"e1", true, ⟨none, none, none⟩⟩ : EventBase).event_id
      ≠ none := by
  decide

/-- C2 (amended): an outlier pair contributes no assignment row and no
prefill: when every pair of the call carrying a given event_id is an
outlier pair, the committed table has no row for that event_id — so no
assignment exists for it, and since the registered prefills are exactly
the committed rows, nothing is prefetched into the Event→Group cache
for it either. -/
theorem outlier_events_never_assigned
    (ecs : List (EventBase × EventContext)) (e : String)
    (hall : ∀ ec ∈ ecs, ec.1.event_id = e → ec.1.is_outlier = true) :
    dictLookup (store_event_state_mappings_txn ecs) e = none ∧
    ∀ g, (e, g) ∉ store_event_state_mappings_txn ecs := by
  have hfil : ecs.filter (relevantPair e) = [] := by
    rw [List.filter_eq_nil_iff]
    intro ec hec hrel
    simp only [relevantPair, Bool.and_eq_true, Bool.not_eq_true', beq_iff_eq] at hrel
    have := hall ec hec hrel.2
    rw [hrel.1] at this
    exact Bool.false_ne_true this
  constructor
  · rw [store_lookup_eq_getLast, hfil]
    rfl
  · intro g hg
    have hsome : (dictLookup (store_event_state_mappings_txn ecs) e).isSome = true := by
      rw [dictLookup_isSome_iff_mem_keys]
      exact List.mem_map_of_mem Prod.fst hg
    rw [store_lookup_eq_getLast, hfil] at hsome
    simp at hsome

/-- Witness for `outlier_events_never_assigned`: a call whose only pair
for "e1" is an outlier pair commits nothing for "e1". -/
theorem outlier_events_never_assigned_witness :
    dictLookup
        (store_event_state_mappings_txn
          [(⟨"e1", true, ⟨none, none, none⟩⟩, ⟨false, some 3, none⟩)]) "e1" = none ∧
    ∀ g, ("e1", g) ∉ store_event_state_mappings_txn
        [(⟨"e1", true, ⟨none, none, none⟩⟩, ⟨false, some 3, none⟩)] :=
  outlier_events_never_assigned
    [(⟨"e1", true, ⟨none, none, none⟩⟩, ⟨false, some 3, none⟩)] "e1" (by decide)

/-- C10: when a call contains two or more non-outlier pairs with the
same event_id, exactly one assignment row is inserted for that event_id,
and its state group is the one computed from the last such pair in input
order (prev_group when that pair is rejected, state_group otherwise):
later pairs silently overwrite earlier ones. -/
theorem duplicate_event_ids_last_wins
    (ecs : List (EventBase × EventContext)) (e : String)
    (h2 : 2 ≤ (ecs.filter (relevantPair e)).length) :
    (store_event_state_mappings_txn ecs).countP (fun p => p.1 = e) = 1 ∧
    ∃ last, (ecs.filter (relevantPair e)).getLast? = some last ∧
      dictLookup (store_event_state_mappings_txn ecs) e
        = some (assignedGroup last) := by
  have hne : ecs.filter (relevantPair e) ≠ [] := by
    intro h
    rw [h] at h2
    simp at h2
  obtain ⟨last, hlast⟩ := Option.ne_none_iff_exists'.mp
    (mt List.getLast?_eq_none_iff.mp hne)
  refine ⟨?_, last, hlast, ?_⟩
  · apply dictKeys_nodup_count _ _ (store_keys_nodup ecs)
    rw [← dictLookup_isSome_iff_mem_keys, store_lookup_eq_getLast, hlast]
    rfl
  · rw [store_lookup_eq_getLast, hlast]
    rfl

/-- Witness for `duplicate_event_ids_last_wins`: two non-outlier pairs
for "e1" with state groups 1 then 2 commit exactly one row, mapping
"e1" to 2. -/
theorem duplicate_event_ids_last_wins_witness :
    (store_event_state_mappings_txn
        [(⟨"e1", false, ⟨none, none, none⟩⟩, ⟨false, some 1, none⟩),
         (⟨"e1", false, ⟨none, none, none⟩⟩, ⟨false, some 2, none⟩)]).countP
        (fun p => p.1 = "e1") = 1 ∧
    ∃ last,
      ([(⟨"e1", false, ⟨none, none, none⟩⟩, ⟨false, some 1, none⟩),
        (⟨"e1", false, ⟨none, none, none⟩⟩,
          ⟨false, some 2, none⟩)].filter (relevantPair "e1")).getLast?
        = some last ∧
      dictLookup
          (store_event_state_mappings_txn
            [(⟨"e1", false, ⟨none, none, none⟩⟩, ⟨false, some 1, none⟩),
             (⟨"e1", false, ⟨none, none, none⟩⟩, ⟨false, some 2, none⟩)])
          "e1"
        = some (assignedGroup last) :=
  duplicate_event_ids_last_wins
    [(⟨"e1", false, ⟨none, none, none⟩⟩, ⟨false, some 1, none⟩),
     (⟨"e1", false, ⟨none, none, none⟩⟩, ⟨false, some 2, none⟩)] "e1" (by decide)

/-- C3: for every assignment (event = e, group = g) committed by
`store_event_state_assignments`, (i) in the committed trace every
Event→Group cache prefill strictly follows the commit, never precedes
it, (ii) an immediately following `get_state_group_for_event e` returns
g from the prefilled cache with zero storage reads, and (iii) when the
transaction fails, the cache is unchanged and no prefill action
occurs. -/
theorem prefill_only_after_commit
    (table cache : List (String × Option Nat))
    (ecs : List (EventBase × EventContext)) (e : String) (g : Option Nat)
    (hrow : (e, g) ∈ store_event_state_mappings_txn ecs) :
    (∀ i j a,
        (store_event_state_assignments table cache ecs true).2.2.get? i
            = some Action.commit →
        (store_event_state_assignments table cache ecs true).2.2.get? j = some a →
        a.isPrefill = true → i < j) ∧
    get_state_group_for_event
        (store_event_state_assignments table cache ecs true).2.1
        (store_event_state_assignments table cache ecs true).1 e
      = (g, (store_event_state_assignments table cache ecs true).2.1, 0) ∧
    (store_event_state_assignments table cache ecs false).2.1 = cache ∧
    (∀ a ∈ (store_event_state_assignments table cache ecs false).2.2,
        a.isPrefill = false) := by
  have htrace : (store_event_state_assignments table cache ecs true).2.2
      = Action.dbInsert (store_event_state_mappings_txn ecs) :: Action.commit ::
        (store_event_state_mappings_txn ecs).map
          (fun p => Action.cachePrefill p.1 p.2) := rfl
  have hcache2 : (store_event_state_assignments table cache ecs true).2.1
      = (store_event_state_mappings_txn ecs).foldl
          (fun c p => dictInsert c p.1 p.2) cache := rfl
  refine ⟨?_, ?_, rfl, ?_⟩
  · intro i j a hi hj hpre
    have hi1 : i = 1 := by
      match i, hi with
      | 0, hi =>
          rw [htrace] at hi
          exact absurd (Option.some.inj hi) (by simp)
      | 1, _ => rfl
      | n + 2, hi =>
          rw [htrace] at hi
          simp only [List.get?_cons_succ, List.get?_map] at hi
          cases hp : (store_event_state_mappings_txn ecs).get? n with
          | none => rw [hp] at hi; simp at hi
          | some p => rw [hp] at hi; simp at hi
    have hj2 : 2 ≤ j := by
      match j, hj with
      | 0, hj =>
          rw [htrace] at hj
          rw [← Option.some.inj hj] at hpre
          simp [Action.isPrefill] at hpre
      | 1, hj =>
          rw [htrace] at hj
          rw [← Option.some.inj hj] at hpre
          simp [Action.isPrefill] at hpre
      | n + 2, _ => omega
    omega
  · rw [hcache2]
    have hl : dictLookup ((store_event_state_mappings_txn ecs).foldl
        (fun c p => dictInsert c p.1 p.2) cache) e = some g :=
      dictLookup_foldl_insert_mem _ _ _ _ (store_keys_nodup ecs) hrow
    simp [get_state_group_for_event, hl]
  · intro a ha
    have hfail : (store_event_state_assignments table cache ecs false).2.2
        = [Action.rollback] := rfl
    rw [hfail] at ha
    simp only [List.mem_singleton] at ha
    rw [ha]
    rfl

/-- Witness for `prefill_only_after_commit`: a concrete committed
assignment ("e1" → 5) is served from the prefilled cache with zero
storage reads. -/
theorem prefill_only_after_commit_witness :
    ("e1", some 5) ∈ store_event_state_mappings_txn
        [(⟨"e1", false, ⟨none, none, none⟩⟩, ⟨false, some 5, none⟩)] ∧
    get_state_group_for_event
        (store_event_state_assignments [] []
          [(⟨"e1", false, ⟨none, none, none⟩⟩, ⟨false, some 5, none⟩)] true).2.1
        (store_event_state_assignments [] []
          [(⟨"e1", false, ⟨none, none, none⟩⟩, ⟨false, some 5, none⟩)] true).1 "e1"
      = (some 5,
         (store_event_state_assignments [] []
           [(⟨"e1", false, ⟨none, none, none⟩⟩, ⟨false, some 5, none⟩)] true).2.1,
         0) :=
  ⟨by decide,
   (prefill_only_after_commit [] []
     [(⟨"e1", false, ⟨none, none, none⟩⟩, ⟨false, some 5, none⟩)]
     "e1" (some 5) (by decide)).2.1⟩

/-- C4: for every table of materialized current-state rows and every
room_id, `get_filtered_current_state_ids` with the all-filter returns
exactly the mapping `get_current_state_ids` returns: the all-filter
produces no WHERE clause and the call delegates to the cached read path
rather than taking a separate one. -/
theorem filtered_all_eq_current_state_ids
    (current_state_events : List CurrentStateRow) (room_id : String) :
    get_filtered_current_state_ids current_state_events room_id StateFilter.all
      = get_current_state_ids current_state_events room_id := rfl

/-- C5: for every room whose current state has no entry under the
(create-type, "") key, `get_create_event_for_room`, `get_room_version`
and `get_room_predecessor` all fail with the room-not-found error rather
than returning an absent value. -/
theorem no_create_event_room_not_found
    (current_state_events : List CurrentStateRow)
    (events : String → Option EventBase) (room_id : String)
    (h : dictLookup (get_current_state_ids current_state_events room_id)
        (EventTypesCreate, "") = none) :
    get_create_event_for_room current_state_events events room_id
        = .error (.NotFoundError ("Unknown room " ++ room_id)) ∧
    get_room_version current_state_events events room_id
        = .error (.NotFoundError ("Unknown room " ++ room_id)) ∧
    get_room_predecessor current_state_events events room_id
        = .error (.NotFoundError ("Unknown room " ++ room_id)) := by
  have hc : get_create_event_for_room current_state_events events room_id
      = .error (.NotFoundError ("Unknown room " ++ room_id)) := by
    simp only [get_create_event_for_room]
    rw [h]
  refine ⟨hc, ?_, ?_⟩
  · unfold get_room_version
    rw [hc]
    rfl
  · unfold get_room_predecessor
    rw [hc]
    rfl

/-- Witness for `no_create_event_room_not_found`: an empty current-state
table has no create entry, and all three queries fail. -/
theorem no_create_event_room_not_found_witness :
    get_create_event_for_room [] (fun _ => none) "r1"
        = .error (.NotFoundError ("Unknown room " ++ "r1")) ∧
    get_room_version [] (fun _ => none) "r1"
        = .error (.NotFoundError ("Unknown room " ++ "r1")) ∧
    get_room_predecessor [] (fun _ => none) "r1"
        = .error (.NotFoundError ("Unknown room " ++ "r1")) :=
  no_create_event_room_not_found [] (fun _ => none) "r1" (by decide)

/-- C6: for every room with a stored create event, `get_room_version`
returns the create event's content field `room_version` verbatim when
present, and the string "1" when absent. -/
theorem room_version_default_or_verbatim
    (current_state_events : List CurrentStateRow)
    (events : String → Option EventBase) (room_id create_id : String)
    (ev : EventBase)
    (hcid : dictLookup (get_current_state_ids current_state_events room_id)
        (EventTypesCreate, "") = some create_id)
    (hne : ¬ create_id = "")
    (hev : events create_id = some ev) :
    (∀ v, ev.content.room_version = some v →
        get_room_version current_state_events events room_id = .ok v) ∧
    (ev.content.room_version = none →
        get_room_version current_state_events events room_id = .ok "1") := by
  have hc : get_create_event_for_room current_state_events events room_id
      = .ok ev := by
    simp only [get_create_event_for_room]
    rw [hcid]
    simp [hne, get_event, hev]
  constructor
  · intro v hv
    unfold get_room_version
    rw [hc]
    simp [Except.bind, hv]
  · intro hv
    unfold get_room_version
    rw [hc]
    simp [Except.bind, hv]

/-- Witness for `room_version_default_or_verbatim`: a concrete room with
a create event carrying room_version "5" returns "5" verbatim. -/
theorem room_version_default_or_verbatim_witness :
    get_room_version [⟨"r1", EventTypesCreate, "", "e1"⟩]
        (fun e => if e = "e1" then
            some ⟨"e1", false, ⟨some "5", none, none⟩⟩ else none) "r1"
      = .ok "5" :=
  (room_version_default_or_verbatim [⟨"r1", EventTypesCreate, "", "e1"⟩]
      (fun e => if e = "e1" then
          some ⟨"e1", false, ⟨some "5", none, none⟩⟩ else none)
      "r1" "e1" ⟨"e1", false, ⟨some "5", none, none⟩⟩
      (by decide) (by decide) (by decide)).1 "5" rfl

/-- The batched lookup's returned mapping, characterized pointwise: when
the item cache only holds values that agree with the assignment table,
a requested id resolves to its table row and anything else is absent. -/
theorem get_state_group_for_events_lookup
    (cache table : List (String × Option Nat)) (event_ids : List String)
    (hids : event_ids.Nodup)
    (hcache : ∀ e v, dictLookup cache e = some v →
        dictLookup table e = v.map some) :
    ∀ e, dictLookup (get_state_group_for_events cache table event_ids).1 e
      = if e ∈ event_ids then dictLookup table e else none := by
  intro e
  have hA : (event_ids.filterMap
        (fun x => (dictLookup cache x).map (fun v => (x, v)))).filterMap
        (fun p => p.2.map (fun g => (p.1, some g)))
      = event_ids.filterMap
          (fun x => (((dictLookup cache x).join).map some).map (fun v => (x, v))) := by
    rw [List.filterMap_filterMap]
    apply List.filterMap_congr
    intro x _
    cases hcx : dictLookup cache x with
    | none => rfl
    | some v => cases v <;> rfl
  have hmiss : (event_ids.filter (fun x => (dictLookup cache x).isNone)).Nodup :=
    hids.filter _
  simp only [get_state_group_for_events, select_state_groups_batch]
  rw [dictLookup_append, hA,
    dictLookup_graph _ _ _ hids,
    dictLookup_graph _ _ _ hmiss]
  by_cases hmem : e ∈ event_ids
  · cases hc : dictLookup cache e with
    | none =>
        have hm : e ∈ event_ids.filter (fun x => (dictLookup cache x).isNone) := by
          rw [List.mem_filter]
          exact ⟨hmem, by rw [hc]; rfl⟩
        simp [hmem, hm, hc, Option.orElse]
    | some v =>
        have htab := hcache e v hc
        cases v with
        | none =>
            have hm : e ∉ event_ids.filter (fun x => (dictLookup cache x).isNone) := by
              rw [List.mem_filter]
              rintro ⟨-, hno⟩
              rw [hc] at hno
              simp at hno
            simp [hmem, hm, hc, htab, Option.orElse]
        | some g =>
            simp [hmem, hc, htab, Option.orElse]
  · have hm : e ∉ event_ids.filter (fun x => (dictLookup cache x).isNone) :=
      fun hin => hmem (List.mem_filter.mp hin).1
    simp [hmem, hm, Option.orElse]

/-- C7: for every requested set of event_ids, the batched lookup returns
a mapping whose keys are exactly the requested ids having a stored
assignment row, each mapped to its assigned state group; ids with no
stored assignment are absent from the result, never present with a null
value; and the single-item lookup returns an absent value, not an
exception, for an unassigned event. -/
theorem state_groups_for_events_exact
    (cache table : List (String × Option Nat)) (event_ids : List String)
    (hids : event_ids.Nodup)
    (hcache : ∀ e v, dictLookup cache e = some v →
        dictLookup table e = v.map some) :
    (∀ e w, dictLookup (get_state_group_for_events cache table event_ids).1 e
        = some w ↔ e ∈ event_ids ∧ dictLookup table e = some w) ∧
    (∀ e, e ∈ event_ids → dictLookup table e = none →
        dictLookup (get_state_group_for_events cache table event_ids).1 e = none) ∧
    (∀ e, dictLookup table e = none →
        (get_state_group_for_event cache table e).1 = none) := by
  have hlook := get_state_group_for_events_lookup cache table event_ids hids hcache
  refine ⟨?_, ?_, ?_⟩
  · intro e w
    rw [hlook e]
    by_cases hmem : e ∈ event_ids
    · simp [hmem]
    · simp [hmem]
  · intro e hmem htab
    rw [hlook e, if_pos hmem, htab]
  · intro e htab
    unfold get_state_group_for_event
    cases hc : dictLookup cache e with
    | some v =>
        have := hcache e v hc
        rw [htab] at this
        cases v with
        | none => rfl
        | some g => simp at this
    | none => simp [select_state_group_onecol, htab]

/-- Witness for `state_groups_for_events_exact`: requesting
{e1, e2, e3} against a table assigning only e1 and e3 returns exactly
{e1 ↦ 1, e3 ↦ 3}; e2 is absent, and its single-item lookup yields an
absent value. -/
theorem state_groups_for_events_exact_witness :
    (dictLookup (get_state_group_for_events []
        [("e1", some 1), ("e3", some 3)] ["e1", "e2", "e3"]).1 "e1"
      = some (some 1)
      ↔ "e1" ∈ ["e1", "e2", "e3"] ∧
        dictLookup [("e1", some 1), ("e3", some 3)] "e1" = some (some 1)) ∧
    dictLookup (get_state_group_for_events []
        [("e1", some 1), ("e3", some 3)] ["e1", "e2", "e3"]).1 "e2" = none ∧
    (get_state_group_for_event [] [("e1", some 1), ("e3", some 3)] "e2").1 = none := by
  have h := state_groups_for_events_exact [] [("e1", some 1), ("e3", some 3)]
    ["e1", "e2", "e3"] (by decide)
    (fun e v hv => by simp [dictLookup] at hv)
  exact ⟨h.1 "e1" (some 1), h.2.1 "e2" (by decide) (by decide),
    h.2.2 "e2" (by decide)⟩

/-- The state reached after K coalesced requests for the same uncached
room: the cache is untouched, the K callers are attached to the one
in-flight fetch in arrival order, and exactly one storage read has been
issued. -/
theorem request_fold_state (K : Nat) (hK : 1 ≤ K) (s0 : CurrentStateCacheState)
    (room_id : String)
    (hcache : dictLookup s0.cache room_id = none)
    (hflight : dictLookup s0.inflight room_id = none) :
    (List.range K).foldl (fun s c => (request_current_state_ids s c room_id).1) s0
      = { cache := s0.cache,
          inflight := dictInsert s0.inflight room_id (List.range K),
          reads := s0.reads + 1 } := by
  induction K, hK using Nat.le_induction with
  | base =>
    rw [show List.range 1 = [0] from rfl]
    simp only [List.foldl_cons, List.foldl_nil]
    simp [request_current_state_ids, hcache, hflight]
  | succ K hK ih =>
    rw [List.range_succ, List.foldl_append, ih]
    simp only [List.foldl_cons, List.foldl_nil]
    simp [request_current_state_ids, hcache, dictLookup_dictInsert_self,
      dictInsert_dictInsert_self, List.range_succ]

/-- C8: K ≥ 2 concurrent `get_current_state_ids` calls for the same
uncached room, all issued before the first fetch completes, cause
exactly one underlying storage read, and on completion all K callers
receive the identical mapping computed over the materialized rows. -/
theorem concurrent_current_state_single_read
    (K : Nat) (hK : 2 ≤ K) (s0 : CurrentStateCacheState)
    (current_state_events : List CurrentStateRow) (room_id : String)
    (hcache : dictLookup s0.cache room_id = none)
    (hflight : dictLookup s0.inflight room_id = none) :
    ((List.range K).foldl
        (fun s c => (request_current_state_ids s c room_id).1) s0).reads
      = s0.reads + 1 ∧
    (complete_current_state_ids
        ((List.range K).foldl
          (fun s c => (request_current_state_ids s c room_id).1) s0)
        current_state_events room_id).2
      = (List.range K).map
          (fun c => (c, get_current_state_ids current_state_events room_id)) := by
  rw [request_fold_state K (by omega) s0 room_id hcache hflight]
  refine ⟨rfl, ?_⟩
  simp [complete_current_state_ids, dictLookup_dictInsert_self]

/-- Witness for `concurrent_current_state_single_read`: two concurrent
calls for room "r1" on a cold state issue one storage read and both
receive the same mapping. -/
theorem concurrent_current_state_single_read_witness :
    ((List.range 2).foldl
        (fun s c => (request_current_state_ids s c "r1").1)
        (⟨[], [], 0⟩ : CurrentStateCacheState)).reads = 0 + 1 ∧
    (complete_current_state_ids
        ((List.range 2).foldl
          (fun s c => (request_current_state_ids s c "r1").1)
          (⟨[], [], 0⟩ : CurrentStateCacheState))
        [⟨"r1", "m.room.create", "", "e1"⟩] "r1").2
      = (List.range 2).map
          (fun c =>
            (c, get_current_state_ids [⟨"r1", "m.room.create", "", "e1"⟩] "r1")) :=
  concurrent_current_state_single_read 2 (by decide) ⟨[], [], 0⟩
    [⟨"r1", "m.room.create", "", "e1"⟩] "r1" (by decide) (by decide)

/-- C9: no read-path resolution of a group's full state performs more
than `MAX_STATE_DELTA_HOPS` (= 100) ancestor hops: the walk is
hard-capped, and once the cap is exhausted the fully materialized
snapshot is produced instead of continuing to chase ancestors. -/
theorem chain_walk_bounded (deltas : Nat → Option StateGroupDelta)
    (snapshot : Nat → List ((String × String) × String)) (group : Nat) :
    (get_state_for_group deltas snapshot group).2 ≤ MAX_STATE_DELTA_HOPS ∧
    resolve_state_group deltas snapshot 0 group = (snapshot group, 0) :=
  ⟨resolve_state_group_hops_le deltas snapshot MAX_STATE_DELTA_HOPS group, rfl⟩

end Synapse
